import Mathlib

/-!
Shallow embedding of `espnet2/gan_svs/vits/generator.py` (class `VITSGenerator`).

Tensors are modelled as nested lists: a float tensor of shape (B, C, T) is a
`List (List (List Rat))`, an integer label stream of shape (B, T) is a
`List (List Int)`, and a per-example length vector is a `List Nat`.  The
external sub-modules used by the generator (text encoder, posterior encoder,
residual coupling flow, HiFiGAN decoder, embedding tables, the positional
encoding table) live outside the source file under verification; they are
modelled as abstract function fields of a `Components` structure, so that every
theorem below quantifies over their behaviour.  All randomness
(`torch.randn_like`, the random segment start offsets) is passed in
explicitly.  Fallible Python code (iterating or indexing an absent optional
argument, a failed `assert`) is modelled by returning `none`.
-/

abbrev T2i := List (List Int)
abbrev T3 := List (List (List Rat))
abbrev Mask2 := List (List Rat)

/-- Second dimension of a (B, T) integer tensor: `t.shape[1]` in the source
(the common padded width of the batch). -/
def ishape1 (t : T2i) : Nat := (t.headD []).length

/-- Third dimension of a (B, C, T) float tensor: `t.shape[2]` in the source. -/
def shape2 (t : T3) : Nat := ((t.headD []).headD []).length

/-- Second dimension of a (B, C, T) float tensor: `t.shape[1]` in the source. -/
def shape1q (t : T3) : Nat := (t.headD []).length

/-- Right zero-padding of a (B, T) stream to width `target`:
`F.pad(input=t, pad=(0, target - t.shape[1], 0, 0), mode="constant", value=0)`
(generator.py lines 369-386). -/
def padStream (t : T2i) (target : Nat) : T2i :=
  t.map (fun r => r ++ List.replicate (target - ishape1 t) 0)

/-- Right truncation `t[:, :target]` (generator.py lines 388-390). -/
def truncStream (t : T2i) (target : Nat) : T2i :=
  t.map (fun r => r.take target)

/-- generator.py lines 368-390: the xml streams are zero-padded on the right
when `label_xml.shape[1] < feats.shape[2]` and truncated on the right
otherwise. -/
def reconcileXml (label_xml midi_xml beat_xml : T2i) (tFeats : Nat) :
    T2i × T2i × T2i :=
  if ishape1 label_xml < tFeats then
    (padStream label_xml tFeats, padStream midi_xml tFeats, padStream beat_xml tFeats)
  else
    (truncStream label_xml tFeats, truncStream midi_xml tFeats, truncStream beat_xml tFeats)

/-- generator.py lines 365-367: every entry of `label_xml_lengths` equal to
`label_xml.shape[1]` is overwritten (in place, on the caller's tensor) with
`feats.shape[2]`. -/
def correctXmlLengths (lens : List Nat) (width tFeats : Nat) : List Nat :=
  lens.map (fun l => if l = width then tFeats else l)

/-- Elementwise map over a (B, C, T) tensor (models `torch.exp` etc.). -/
def tMap (f : Rat → Rat) (t : T3) : T3 :=
  t.map (fun ex => ex.map (fun ch => ch.map f))

/-- Elementwise combination of two same-shaped (B, C, T) tensors. -/
def tZip (f : Rat → Rat → Rat) (a b : T3) : T3 :=
  List.zipWith (fun ea eb => List.zipWith (fun ca cb => List.zipWith f ca cb) ea eb) a b

/-- Elementwise tensor addition. -/
def tAdd (a b : T3) : T3 := tZip (fun u v => u + v) a b

/-- Elementwise tensor multiplication. -/
def tMul (a b : T3) : T3 := tZip (fun u v => u * v) a b

/-- Multiplication of a tensor by a Python float scalar (on the right). -/
def tSMul (a : T3) (s : Rat) : T3 := tMap (fun u => u * s) a

/-- Broadcast multiplication `z * mask` of a (B, C, T) tensor with a (B, 1, T)
validity mask, the singleton middle axis of the mask being dropped in the
embedding. -/
def bmulMask (z : T3) (m : Mask2) : T3 :=
  List.zipWith (fun ex row => ex.map (fun ch => List.zipWith (fun u v => u * v) ch row)) z m

/-- `wav.squeeze(1)` for a (B, 1, T) tensor. -/
def squeeze1 (t : T3) : List (List Rat) := t.map (fun ex => ex.headD [])

/-- Python slicing `t[:, :, :max_len]`; slicing with `None` is the identity. -/
def truncTime (maxLen : Option Nat) (t : T3) : T3 :=
  match maxLen with
  | none => t
  | some n => t.map (fun ex => ex.map (fun ch => ch.take n))

/-- Nested length profile of a (B, C, T) tensor: the list of channel-row
lengths per example. -/
def dims3 (t : T3) : List (List Nat) := t.map (fun ex => ex.map List.length)

/-- Entry of a (B, C, T) tensor at (example, channel, time). -/
def ent3 (t : T3) (b c i : Nat) : Rat := ((t.getD b []).getD c []).getD i 0

/-- The index triple (example, channel, time) is inside the tensor. -/
def inBounds3 (t : T3) (b c i : Nat) : Prop :=
  b < t.length ∧ c < (t.getD b []).length ∧ i < ((t.getD b []).getD c []).length

instance (t : T3) (b c i : Nat) : Decidable (inBounds3 t b c i) := by
  unfold inBounds3; infer_instance

/-- Every channel row of every example has time length `n`. -/
def timesUniform (t : T3) (n : Nat) : Prop := ∀ ex ∈ t, ∀ ch ∈ ex, ch.length = n

instance (t : T3) (n : Nat) : Decidable (timesUniform t n) := by
  unfold timesUniform; infer_instance

/-- Every example has `h` channels. -/
def chansUniform (t : T3) (h : Nat) : Prop := ∀ ex ∈ t, ex.length = h

instance (t : T3) (h : Nat) : Decidable (chansUniform t h) := by
  unfold chansUniform; infer_instance

/-- Modelled from the spec: `get_random_segments` (from `espnet2.gan_tts.utils`)
is code of this repository that is not under `src/`.  Per the spec it crops,
for every example, a fixed-size segment `z[b][:, start_b : start_b + segment_size]`
of the latent, at a randomly chosen start offset bounded by the feature length
minus the segment size, and returns the segments together with the start
indices.  The random draw is passed in explicitly as `starts`; `featsLengths`
only bounds the draw and is not read by the crop itself. -/
def getRandomSegments (z : T3) (featsLengths : List Nat) (segmentSize : Nat)
    (starts : List Nat) : T3 × List Nat :=
  (List.zipWith (fun ex s => ex.map (fun ch => (ch.drop s).take segmentSize)) z starts,
   starts)

/-- Prefix sums of a duration vector: `torch.cumsum(dur, -1)` (generator.py
line 723) has entries `cumDur d (i + 1)`. -/
def cumDur (d : List Nat) (i : Nat) : Nat := (d.take i).sum

/-- Entry (encoder index `i`, feature index `y`) of the path matrix of
`VITSGenerator._generate_path` before the transpose and the mask
multiplication: the comparison matrix `path[:, y] = (y < cum_dur)` (line 726)
followed by the first difference along the encoder axis
`path - F.pad(path, [0, 0, 1, 0, 0, 0])[:, :-1]` (line 732), the shifted-out
row being all zeros, which is also the value of `y < cumDur d 0 = 0`. -/
def pathEnt (d : List Nat) (i y : Nat) : Int :=
  (if y < cumDur d (i + 1) then 1 else 0) - (if y < cumDur d i then 1 else 0)

/-- Row `i` (one encoder position, all `tY` feature positions) of the
pre-mask path matrix of `_generate_path`. -/
def generatePathRow (d : List Nat) (tY i : Nat) : List Int :=
  (List.range tY).map (fun y => pathEnt d i y)

/-- The (T_text × T_feats) pre-mask path matrix of `_generate_path` for one
batch example. -/
def generatePath (d : List Nat) (tY : Nat) : List (List Int) :=
  (List.range d.length).map (fun i => generatePathRow d tY i)

/-- Full per-example result of `_generate_path` (line 733): transpose to
(T_feats, T_text) and multiply with the attention mask. -/
def generatePathFull (d : List Nat) (mask : List (List Int)) (tY : Nat) :
    List (List Int) :=
  (List.range tY).map (fun y =>
    (List.range d.length).map (fun x => pathEnt d x y * ((mask.getD y []).getD x 0)))

/-- Construction-time state of `VITSGenerator.__init__` read by the forward and
inference passes (generator.py lines 186, 247, 268-283). -/
structure GenState where
  segmentSize : Nat
  upsampleFactor : Nat
  spks : Option Int
  spkEmbedDim : Option Int
  langs : Option Int
  useSdp : Bool

/-- Construction-time configuration slice that the `__init__` control flow
depends on (generator.py lines 50-104); the architecture hyperparameters that
are merely forwarded to the external sub-module constructors are omitted. -/
structure VITSConfig where
  vocabs : Nat
  spks : Option Int := none
  langs : Option Int := none
  spkEmbedDim : Option Int := none
  globalChannels : Int := -1
  segmentSize : Nat := 32
  decoderUpsampleScales : List Nat := [8, 8, 2, 2]
  useSdp : Bool := false

/-- generator.py lines 185-288, `VITSGenerator.__init__`: `upsample_factor` is
the product of the decoder upsample scales (line 268); each of the three
global-conditioning features is enabled only when its count or dimension
passes the threshold, and then `assert global_channels > 0` is executed
(lines 269-283).  A failed assert raises at construction and is modelled as
`none`. -/
def initGenerator (cfg : VITSConfig) : Option GenState :=
  let upf := cfg.decoderUpsampleScales.prod
  Option.bind
    (match cfg.spks with
     | some n =>
       if 1 < n then (if 0 < cfg.globalChannels then some (some n) else none)
       else some none
     | none => some none) fun spksF =>
  Option.bind
    (match cfg.spkEmbedDim with
     | some dd =>
       if 0 < dd then (if 0 < cfg.globalChannels then some (some dd) else none)
       else some none
     | none => some none) fun spkEmbedDimF =>
  Option.bind
    (match cfg.langs with
     | some n =>
       if 1 < n then (if 0 < cfg.globalChannels then some (some n) else none)
       else some none
     | none => some none) fun langsF =>
  some { segmentSize := cfg.segmentSize, upsampleFactor := upf,
         spks := spksF, spkEmbedDim := spkEmbedDimF, langs := langsF,
         useSdp := cfg.useSdp }

/-- External sub-modules of the generator, out of scope of the source file and
therefore abstract: the theorems quantify over them.  `textEncoder` returns
`(x, m_p, logs_p, x_mask)`, `posteriorEncoder` returns
`(z, m_q, logs_q, y_mask)`, `flow` takes the inverse flag last, `vexp` is the
elementwise function applied by `torch.exp`, and `sinPosEnc` is the sinusoidal
positional-encoding table built in lines 464-475 from the batch, channel and
time extents.  `spembProjF` models `spemb_proj(F.normalize(spembs))` as used by
`forward` (line 405) and `spembProjI` models
`spemb_proj(F.normalize(spembs.unsqueeze(0)))` as used by `inference`
(line 616).  `durationPredictor`, `maximumPath` and `lengthRegulator` are
constructed in `__init__` but not invoked by any active code path. -/
structure Components where
  textEncoder : Option T2i → Option (List Nat) → Option T2i → Option T2i → Option T2i →
    T3 × T3 × T3 × Mask2
  posteriorEncoder : Option T3 → Option (List Nat) → Option T3 → T3 × T3 × T3 × Mask2
  flow : T3 → Mask2 → Option T3 → Bool → T3
  decoder : T3 → Option T3 → T3
  globalEmb : List Int → T3
  spembProjF : List (List Rat) → T3
  spembProjI : List (List Rat) → T3
  langEmb : List Int → T3
  sinPosEnc : Nat → Nat → Nat → T3
  durationPredictor : T3 → Mask2 → T3
  maximumPath : T3 → T3 → T3
  lengthRegulator : T3 → T2i → T2i → List Nat → T3
  vexp : Rat → Rat

/-- Caller-owned per-example length buffers passed to `VITSGenerator.forward`.
In the source these are tensors, and item assignment (line 367) mutates the
caller's storage, so they are threaded through the pass as explicit state. -/
structure Buffers where
  text_lengths : List Nat
  feats_lengths : List Nat
  label_lab_lengths : Option (List Nat) := none
  label_xml_lengths : Option (List Nat) := none
  midi_lab_lengths : Option (List Nat) := none
  midi_xml_lengths : Option (List Nat) := none
  tempo_lab_lengths : Option (List Nat) := none
  tempo_xml_lengths : Option (List Nat) := none
  beat_lab_lengths : Option (List Nat) := none
  beat_xml_lengths : Option (List Nat) := none

/-- The fifth component of the value returned by `VITSGenerator.forward`:
the Python tuple `(z, z_p, m_p, logs_p, m_q, logs_q)` of line 554. -/
structure LatentTuple where
  z : T3
  zP : T3
  mP : T3
  logsP : T3
  mQ : T3
  logsQ : T3

/-- The latent tuple as the ordered list of its members (the Python tuple’s
enumeration, so that `len(tuple)` is its length). -/
def LatentTuple.toList (t : LatentTuple) : List T3 :=
  [t.z, t.zP, t.mP, t.logsP, t.mQ, t.logsQ]

abbrev FRet := T3 × List Nat × Mask2 × Mask2 × LatentTuple

/-- The latent tuple of a forward return value. -/
def latentsOf (r : FRet) : LatentTuple := r.2.2.2.2

/-- `if g is None: g = g_ else: g = g + g_` (generator.py lines 406-409,
413-416). -/
def gAcc (g : Option T3) (h : T3) : Option T3 :=
  match g with
  | none => some h
  | some g0 => some (tAdd g0 h)

/-- Global-conditioning accumulation of generator.py lines 399-416 (`forward`)
and 610-627 (`inference`): speaker-index embedding, projected external speaker
embedding, language-index embedding, summed if present.  Each enabled feature
reads its index/embedding input (`sids.view(-1)` etc.); an absent input then
raises, modelled as the outer `none`.  `spembPipe` is the projection pipeline,
which differs between `forward` and `inference`. -/
def computeG (c : Components) (st : GenState) (spembPipe : List (List Rat) → T3)
    (sids : Option (List Int)) (spembs : Option (List (List Rat)))
    (lids : Option (List Int)) : Option (Option T3) :=
  Option.bind
    (match st.spks, sids with
     | none, _ => some none
     | some _, none => none
     | some _, some s => some (some (c.globalEmb s))) fun g1 =>
  Option.bind
    (match st.spkEmbedDim, spembs with
     | none, _ => some g1
     | some _, none => none
     | some _, some se => some (gAcc g1 (spembPipe se))) fun g2 =>
  Option.bind
    (match st.langs, lids with
     | none, _ => some g2
     | some _, none => none
     | some _, some l => some (gAcc g2 (c.langEmb l))) fun g3 =>
  some g3

/-- generator.py lines 290-555, `VITSGenerator.forward`, with the caller-owned
length buffers threaded as explicit state and the random segment start offsets
passed in explicitly.  `text` and the `text_lengths` buffer are accepted but
never read by the body, exactly as in the source.  The body unconditionally
iterates `label_xml_lengths` (line 365) and indexes `label_xml` (lines
366-374), `midi_xml` (375-389) and `beat_xml` (381-390); a `none` for any of
these is the Python `TypeError` and yields `none`.  The local rebindings of
`label_xml`/`midi_xml`/`beat_xml` (lines 369-390) do not touch the caller's
tensors, while the item assignment of line 367 does, hence the updated
`Buffers`.  The sum `x + pe` of line 476 is dead: no later active line reads
it. -/
def forward (c : Components) (st : GenState) (text : T2i) (feats : T3) (ds : T2i)
    (bufs : Buffers)
    (label_lab label_xml midi_lab midi_xml tempo_lab tempo_xml beat_lab beat_xml :
      Option T2i)
    (sids : Option (List Int)) (spembs : Option (List (List Rat)))
    (lids : Option (List Int)) (segStarts : List Nat) :
    Option (FRet × Buffers) :=
  Option.bind bufs.label_xml_lengths fun lxl =>
  Option.bind label_xml fun lx =>
  Option.bind midi_xml fun mx =>
  Option.bind beat_xml fun bx =>
  let tFeats := shape2 feats
  let lens2 := correctXmlLengths lxl (ishape1 lx) tFeats
  let rec3 := reconcileXml lx mx bx tFeats
  let te := c.textEncoder (some rec3.1) (some lens2) (some ds) (some rec3.2.1)
    (some rec3.2.2)
  Option.bind (computeG c st c.spembProjF sids spembs lids) fun g =>
  let _xWithPe := tAdd te.1 (c.sinPosEnc te.1.length (shape1q te.1) (shape2 te.1))
  let pe := c.posteriorEncoder (some feats) (some bufs.feats_lengths) g
  let zP := c.flow pe.1 pe.2.2.2 g false
  let seg := getRandomSegments pe.1 bufs.feats_lengths st.segmentSize segStarts
  let wav := c.decoder seg.1 g
  some ((wav, seg.2, te.2.2.2, pe.2.2.2,
         { z := pe.1, zP := zP, mP := te.2.1, logsP := te.2.2.1,
           mQ := pe.2.1, logsQ := pe.2.2.1 }),
        { bufs with label_xml_lengths := some lens2 })

/-- generator.py lines 557-709, `VITSGenerator.inference`.  The Gaussian draw
`torch.randn_like(m_p)` of line 703 is passed in explicitly as `noise`.  The
`dur`, `noise_scale_dur` and `alpha` arguments are accepted but never read
(their only uses are commented out), and the second and third return values
are the literal `None, None` of line 708.  In the teacher-forcing branch the
flow output `z_p` of line 634 is computed but not read afterwards. -/
def inference (c : Components) (st : GenState) (text : T2i)
    (text_lengths : List Nat) (feats : Option T3) (feats_lengths : Option (List Nat))
    (label_lab label_xml : Option T2i) (label_xml_lengths : Option (List Nat))
    (midi_lab midi_xml tempo_lab tempo_xml beat_lab beat_xml : Option T2i)
    (sids : Option (List Int)) (spembs : Option (List (List Rat)))
    (lids : Option (List Int)) (dur : Option T2i)
    (noise_scale noise_scale_dur alpha : Rat) (max_len : Option Nat)
    (use_teacher_forcing : Bool) (noise : T3) :
    Option (List (List Rat) × Option T3 × Option T2i) :=
  let te := c.textEncoder label_xml label_xml_lengths none midi_xml beat_xml
  Option.bind (computeG c st c.spembProjI sids spembs lids) fun g =>
  if use_teacher_forcing then
    let pe := c.posteriorEncoder feats feats_lengths g
    let _zP := c.flow pe.1 pe.2.2.2 g false
    let wav := c.decoder (bmulMask pe.1 pe.2.2.2) g
    some (squeeze1 wav, none, none)
  else
    let zP := tAdd te.2.1 (tSMul (tMul noise (tMap c.vexp te.2.2.1)) noise_scale)
    let z := c.flow zP te.2.2.2 g true
    let wav := c.decoder (truncTime max_len (bmulMask z te.2.2.2)) g
    some (squeeze1 wav, none, none)

/-- A concrete time-8 channel row, for the concrete component instance used by
the witness theorems. -/
def exRow8 : List Rat := List.replicate 8 0

/-- Concrete latent tensor: 1 example, 2 channels, time 8. -/
def exZ8 : T3 := [[exRow8, exRow8]]

/-- Concrete feature-axis validity mask: 1 example, time 8. -/
def exMask8 : Mask2 := [List.replicate 8 1]

/-- Concrete text-resolution tensor: 1 example, 2 channels, time 2. -/
def exT2 : T3 := [[[0, 0], [0, 0]]]

/-- Concrete text-axis validity mask: 1 example, time 2. -/
def exMask2 : Mask2 := [[1, 1]]

/-- Concrete acoustic features: 1 example, 1 aux channel, time 8. -/
def exFeats : T3 := [[exRow8]]

/-- Concrete integer label stream of shape (1, 2). -/
def exStream : T2i := [[1, 1]]

/-- Concrete caller-owned length buffers. -/
def exBufs : Buffers :=
  { text_lengths := [2], feats_lengths := [8], label_xml_lengths := some [2] }

/-- A concrete, fully computable instance of the external components, used to
instantiate the witness theorems. -/
def cEx : Components where
  textEncoder := fun _ _ _ _ _ => (exT2, exT2, exT2, exMask2)
  posteriorEncoder := fun _ _ _ => (exZ8, exZ8, exZ8, exMask8)
  flow := fun z _ _ _ => z
  decoder := fun z _ => z
  globalEmb := fun _ => exT2
  spembProjF := fun _ => exT2
  spembProjI := fun _ => exT2
  langEmb := fun _ => exT2
  sinPosEnc := fun _ _ _ => exT2
  durationPredictor := fun x _ => x
  maximumPath := fun x _ => x
  lengthRegulator := fun x _ _ _ => x
  vexp := fun q => q

/-- Concrete configuration: segment size 4, upsample scales `[1]`, no global
conditioning. -/
def cfgEx : VITSConfig := { vocabs := 1, segmentSize := 4, decoderUpsampleScales := [1] }

/-- The construction state produced by `initGenerator cfgEx`. -/
def stEx : GenState :=
  { segmentSize := 4, upsampleFactor := 1, spks := none, spkEmbedDim := none,
    langs := none, useSdp := false }

/-- A fully concrete training-forward call (segment size 4, feature time
length 8, segment start 0). -/
def forwardEx : Option (FRet × Buffers) :=
  forward cEx stEx exStream exFeats exStream exBufs none (some exStream) none
    (some exStream) none none none (some exStream) none none none [0]

theorem obind_some {α β : Type} (a : α) (f : α → Option β) :
    Option.bind (some a) f = f a := rfl

theorem obind_none {α β : Type} (f : α → Option β) :
    Option.bind (none : Option α) f = none := rfl

theorem obind_const_none {α β : Type} (o : Option α) :
    (Option.bind o fun _ => (none : Option β)) = none := by cases o <;> rfl

theorem getD_map_lt {α β : Type} (f : α → β) (l : List α) (i : Nat) (dB : β)
    (dA : α) (h : i < l.length) : (l.map f).getD i dB = f (l.getD i dA) := by
  induction l generalizing i with
  | nil => simp at h
  | cons a l ih =>
    cases i with
    | zero => rfl
    | succ n => simpa using ih n (by simpa using h)

theorem getD_zipWith_lt {α β γ : Type} (f : α → β → γ) (xs : List α)
    (ys : List β) (i : Nat) (dc : γ) (da : α) (db : β) (h1 : i < xs.length)
    (h2 : i < ys.length) :
    (List.zipWith f xs ys).getD i dc = f (xs.getD i da) (ys.getD i db) := by
  induction xs generalizing ys i with
  | nil => simp at h1
  | cons a xs ih =>
    cases ys with
    | nil => simp at h2
    | cons b ys =>
      cases i with
      | zero => rfl
      | succ n => simpa using ih ys n (by simpa using h1) (by simpa using h2)

theorem getD_eq_get {α : Type} (l : List α) (i : Nat) (d : α) (h : i < l.length) :
    l.getD i d = l.get ⟨i, h⟩ := by
  induction l generalizing i with
  | nil => simp at h
  | cons a l ih =>
    cases i with
    | zero => rfl
    | succ n => simpa using ih n (by simpa using h)

theorem mem_zipWith_elim {α β γ : Type} {f : α → β → γ} {z : γ} :
    ∀ {as : List α} {bs : List β}, z ∈ List.zipWith f as bs →
      ∃ (i : Nat) (h1 : i < as.length) (h2 : i < bs.length),
        z = f (as.get ⟨i, h1⟩) (bs.get ⟨i, h2⟩) := by
  intro as
  induction as with
  | nil => intro bs h; simp at h
  | cons a as ih =>
    intro bs h
    cases bs with
    | nil => simp at h
    | cons b bs =>
      rw [List.zipWith_cons_cons] at h
      rcases List.mem_cons.mp h with h0 | h1
      · exact ⟨0, by simp, by simp, by simpa using h0⟩
      · obtain ⟨i, hi1, hi2, he⟩ := ih h1
        exact ⟨i + 1, by simpa using hi1, by simpa using hi2, by simpa using he⟩

theorem sum_take_le (l : List Nat) (i : Nat) : (l.take i).sum ≤ l.sum := by
  conv_rhs => rw [← List.take_append_drop i l]
  rw [List.sum_append]
  omega

theorem cumDur_mono (d : List Nat) {i j : Nat} (h : i ≤ j) :
    cumDur d i ≤ cumDur d j := by
  unfold cumDur
  have heq : d.take i = (d.take j).take i := by
    rw [List.take_take, Nat.min_eq_left h]
  rw [heq]
  exact sum_take_le (d.take j) i

theorem cumDur_le_sum (d : List Nat) (i : Nat) : cumDur d i ≤ d.sum :=
  sum_take_le d i

theorem cumDur_succ (d : List Nat) (i : Nat) (h : i < d.length) :
    cumDur d (i + 1) = cumDur d i + d.getD i 0 := by
  induction d generalizing i with
  | nil => simp at h
  | cons a l ih =>
    cases i with
    | zero => simp [cumDur]
    | succ n =>
      have hn := ih n (by simpa using h)
      simp only [cumDur, List.take_succ_cons, List.sum_cons] at hn ⊢
      simp only [List.getD_cons_succ]
      omega

theorem range_indicator_sum (a b : Nat) (hab : a ≤ b) (n : Nat) :
    (((List.range n).map
        (fun y => (if y < b then (1 : Int) else 0) - (if y < a then 1 else 0))).sum)
      = ((min b n : Nat) : Int) - ((min a n : Nat) : Int) := by
  induction n with
  | zero => simp
  | succ n ih =>
    rw [List.range_succ, List.map_append, List.sum_append, ih]
    simp only [List.map_cons, List.map_nil, List.sum_cons, List.sum_nil]
    split_ifs <;> omega

theorem pathEnt_cases (d : List Nat) (i y : Nat) :
    pathEnt d i y = 0 ∨ pathEnt d i y = 1 := by
  have h := cumDur_mono d (Nat.le_add_right i 1)
  unfold pathEnt
  split_ifs <;> omega

theorem pathEnt_one_iff (d : List Nat) (i y : Nat) :
    pathEnt d i y = 1 ↔ (cumDur d i ≤ y ∧ y < cumDur d (i + 1)) := by
  have h := cumDur_mono d (Nat.le_add_right i 1)
  unfold pathEnt
  split_ifs <;> omega

theorem generatePathRow_sum (d : List Nat) (tY i : Nat) (hi : i < d.length)
    (hfit : d.sum ≤ tY) :
    (generatePathRow d tY i).sum = (d.getD i 0 : Int) := by
  have h1 : cumDur d i ≤ cumDur d (i + 1) := cumDur_mono d (Nat.le_add_right i 1)
  have h2 : cumDur d (i + 1) ≤ tY := le_trans (cumDur_le_sum d (i + 1)) hfit
  have h3 := cumDur_succ d i hi
  unfold generatePathRow pathEnt
  rw [range_indicator_sum (cumDur d i) (cumDur d (i + 1)) h1 tY]
  have h4 : min (cumDur d (i + 1)) tY = cumDur d (i + 1) := by omega
  have h5 : min (cumDur d i) tY = cumDur d i := by omega
  rw [h4, h5]
  omega

theorem count_one_eq_sum (l : List Int) (h : ∀ x ∈ l, x = 0 ∨ x = 1) :
    ((l.count 1 : Nat) : Int) = l.sum := by
  induction l with
  | nil => simp
  | cons a l ih =>
    have ha := h a (by simp)
    have ih2 := ih (fun x hx => h x (by simp [hx]))
    rcases ha with h0 | h1 <;> subst_eqs <;>
      simp [List.count_cons, ← ih2] <;> omega

theorem map_length_zipWith_rows (f : Rat → Rat → Rat) :
    ∀ (ea eb : List (List Rat)), ea.map List.length = eb.map List.length →
      (List.zipWith (fun ca cb => List.zipWith f ca cb) ea eb).map List.length
        = ea.map List.length := by
  intro ea
  induction ea with
  | nil => intro eb h; simp
  | cons ca ea ih =>
    intro eb h
    cases eb with
    | nil => simp at h
    | cons cb eb =>
      simp only [List.map_cons, List.cons.injEq] at h
      simp only [List.zipWith_cons_cons, List.map_cons, List.length_zipWith,
        List.cons.injEq]
      exact ⟨by omega, ih eb h.2⟩

theorem dims3_tZip (f : Rat → Rat → Rat) :
    ∀ (a b : T3), dims3 a = dims3 b → dims3 (tZip f a b) = dims3 a := by
  intro a
  induction a with
  | nil => intro b h; simp [tZip, dims3]
  | cons ea a ih =>
    intro b h
    cases b with
    | nil => simp [dims3] at h
    | cons eb b =>
      simp only [dims3, List.map_cons, List.cons.injEq] at h
      simp only [tZip, List.zipWith_cons_cons, dims3, List.map_cons,
        List.cons.injEq]
      refine ⟨map_length_zipWith_rows f ea eb h.1, ?_⟩
      have hrec := ih b (by simpa [dims3] using h.2)
      simpa [tZip, dims3] using hrec

theorem dims3_tMap (f : Rat → Rat) (t : T3) : dims3 (tMap f t) = dims3 t := by
  simp [dims3, tMap, List.map_map, Function.comp_def]

theorem dims3_length (t : T3) : (dims3 t).length = t.length := by simp [dims3]

theorem length_eq_of_dims {a b : T3} (h : dims3 a = dims3 b) :
    a.length = b.length := by
  have hc := congrArg List.length h
  simpa [dims3] using hc

theorem length_getD_of_dims {a b : T3} (h : dims3 a = dims3 b) {bi : Nat}
    (hb : bi < a.length) : (a.getD bi []).length = (b.getD bi []).length := by
  have hb2 : bi < b.length := by
    have := length_eq_of_dims h; omega
  have ha2 : (dims3 a).getD bi [] = (a.getD bi []).map List.length :=
    getD_map_lt _ a bi [] [] hb
  have hb3 : (dims3 b).getD bi [] = (b.getD bi []).map List.length :=
    getD_map_lt _ b bi [] [] hb2
  have hmid : (a.getD bi []).map List.length = (b.getD bi []).map List.length := by
    rw [← ha2, ← hb3, h]
  have := congrArg List.length hmid
  simpa using this

theorem rowmap_eq_of_dims {a b : T3} (h : dims3 a = dims3 b) {bi : Nat}
    (hb : bi < a.length) :
    (a.getD bi []).map List.length = (b.getD bi []).map List.length := by
  have hb2 : bi < b.length := by
    have := length_eq_of_dims h; omega
  have ha2 : (dims3 a).getD bi [] = (a.getD bi []).map List.length :=
    getD_map_lt _ a bi [] [] hb
  have hb3 : (dims3 b).getD bi [] = (b.getD bi []).map List.length :=
    getD_map_lt _ b bi [] [] hb2
  rw [← ha2, ← hb3, h]

theorem length_getD2_of_dims {a b : T3} (h : dims3 a = dims3 b) {bi c : Nat}
    (hb : bi < a.length) (hc : c < (a.getD bi []).length) :
    ((a.getD bi []).getD c []).length = ((b.getD bi []).getD c []).length := by
  have hmap := rowmap_eq_of_dims h hb
  have hc2 : c < (b.getD bi []).length := by
    rw [← length_getD_of_dims h hb]; exact hc
  have e1 : ((a.getD bi []).map List.length).getD c 0
      = ((a.getD bi []).getD c []).length := getD_map_lt _ _ c 0 [] hc
  have e2 : ((b.getD bi []).map List.length).getD c 0
      = ((b.getD bi []).getD c []).length := getD_map_lt _ _ c 0 [] hc2
  rw [← e1, ← e2, hmap]

theorem inBounds3_of_dims {a b : T3} (h : dims3 a = dims3 b) {bi c i : Nat}
    (hb : inBounds3 a bi c i) : inBounds3 b bi c i := by
  obtain ⟨h1, h2, h3⟩ := hb
  have hl := length_eq_of_dims h
  refine ⟨by omega, ?_, ?_⟩
  · rw [← length_getD_of_dims h h1]; exact h2
  · rw [← length_getD2_of_dims h h1 h2]; exact h3

theorem ent3_tZip (f : Rat → Rat → Rat) {a b : T3} {bi c i : Nat}
    (ha : inBounds3 a bi c i) (hd : dims3 a = dims3 b) :
    ent3 (tZip f a b) bi c i = f (ent3 a bi c i) (ent3 b bi c i) := by
  obtain ⟨h1, h2, h3⟩ := ha
  obtain ⟨h1b, h2b, h3b⟩ := inBounds3_of_dims hd ⟨h1, h2, h3⟩
  unfold ent3 tZip
  rw [getD_zipWith_lt _ a b bi [] [] [] h1 h1b]
  rw [getD_zipWith_lt _ _ _ c [] [] [] h2 h2b]
  rw [getD_zipWith_lt f _ _ i 0 0 0 h3 h3b]

theorem ent3_tMap (f : Rat → Rat) {t : T3} {bi c i : Nat}
    (h : inBounds3 t bi c i) :
    ent3 (tMap f t) bi c i = f (ent3 t bi c i) := by
  obtain ⟨h1, h2, h3⟩ := h
  unfold ent3 tMap
  rw [getD_map_lt _ t bi [] [] h1]
  rw [getD_map_lt _ _ c [] [] h2]
  rw [getD_map_lt f _ i 0 0 h3]

theorem timesUniform_bmulMask {z : T3} {m : Mask2} {n : Nat}
    (hz : timesUniform z n) (hm : ∀ row ∈ m, row.length = n) :
    timesUniform (bmulMask z m) n := by
  intro ex hex ch hch
  obtain ⟨i, h1, h2, he⟩ := mem_zipWith_elim hex
  subst he
  obtain ⟨ch0, hch0, rfl⟩ := List.mem_map.mp hch
  rw [List.length_zipWith]
  have e1 := hz _ (List.get_mem z i h1) ch0 hch0
  have e2 := hm _ (List.get_mem m i h2)
  omega

theorem timesUniform_segments {z : T3} {fl : List Nat} {segSize : Nat}
    {starts : List Nat} {tF : Nat} (hz : timesUniform z tF)
    (hst : ∀ i, i < starts.length → starts.getD i 0 + segSize ≤ tF) :
    timesUniform (getRandomSegments z fl segSize starts).1 segSize := by
  intro ex hex ch hch
  obtain ⟨i, h1, h2, he⟩ := mem_zipWith_elim hex
  subst he
  obtain ⟨ch0, hch0, rfl⟩ := List.mem_map.mp hch
  have e1 := hz _ (List.get_mem z i h1) ch0 hch0
  have e2 := hst i h2
  rw [getD_eq_get starts i 0 h2] at e2
  simp only [List.length_take, List.length_drop]
  omega

theorem computeG_pipe_eq (c : Components) (st : GenState)
    (p1 p2 : List (List Rat) → T3) (sids : Option (List Int))
    (spembs : Option (List (List Rat))) (lids : Option (List Int))
    (h : st.spkEmbedDim = none) :
    computeG c st p1 sids spembs lids = computeG c st p2 sids spembs lids := by
  unfold computeG
  simp only [h]

theorem ent3_tAdd {a b : T3} {bi c i : Nat} (ha : inBounds3 a bi c i)
    (hd : dims3 a = dims3 b) :
    ent3 (tAdd a b) bi c i = ent3 a bi c i + ent3 b bi c i := by
  unfold tAdd
  rw [ent3_tZip _ ha hd]

theorem ent3_tMul {a b : T3} {bi c i : Nat} (ha : inBounds3 a bi c i)
    (hd : dims3 a = dims3 b) :
    ent3 (tMul a b) bi c i = ent3 a bi c i * ent3 b bi c i := by
  unfold tMul
  rw [ent3_tZip _ ha hd]

theorem ent3_tSMul {a : T3} {bi c i : Nat} (s : Rat) (ha : inBounds3 a bi c i) :
    ent3 (tSMul a s) bi c i = ent3 a bi c i * s := by
  unfold tSMul
  rw [ent3_tMap _ ha]

theorem dims3_tAdd {a b : T3} (hd : dims3 a = dims3 b) :
    dims3 (tAdd a b) = dims3 a := dims3_tZip _ a b hd

theorem dims3_tMul {a b : T3} (hd : dims3 a = dims3 b) :
    dims3 (tMul a b) = dims3 a := dims3_tZip _ a b hd

theorem dims3_tSMul (a : T3) (s : Rat) : dims3 (tSMul a s) = dims3 a :=
  dims3_tMap _ a

/-- C7: for every non-negative integer duration vector `d` over the encoder
positions whose cumulative sums fit within the feature length `tY`, the path
generator of `_generate_path` (cumulative sum then first difference) produces,
before mask application, a binary matrix in which row `i` sums to `d[i]` and
contains exactly `d[i]` ones, every feature column holds at most one `1`, and
the encoder index assigned to successive feature positions is non-decreasing;
`generatePath` stacks exactly these rows. -/
theorem generatePath_monotone_spec (d : List Nat) (tY : Nat) (hfit : d.sum ≤ tY) :
    (∀ i y, pathEnt d i y = 0 ∨ pathEnt d i y = 1)
    ∧ (∀ i, i < d.length → (generatePathRow d tY i).sum = (d.getD i 0 : Int))
    ∧ (∀ i, i < d.length →
        (((generatePathRow d tY i).count 1 : Nat) : Int) = (d.getD i 0 : Int))
    ∧ (∀ y i j, i < j → ¬(pathEnt d i y = 1 ∧ pathEnt d j y = 1))
    ∧ (∀ y i j, pathEnt d i y = 1 → pathEnt d j (y + 1) = 1 → i ≤ j)
    ∧ generatePath d tY
        = (List.range d.length).map (fun i => generatePathRow d tY i) := by
  refine ⟨fun i y => pathEnt_cases d i y, ?_, ?_, ?_, ?_, rfl⟩
  · exact fun i hi => generatePathRow_sum d tY i hi hfit
  · intro i hi
    have hb : ∀ x ∈ generatePathRow d tY i, x = 0 ∨ x = 1 := by
      intro x hx
      obtain ⟨y, _, rfl⟩ := List.mem_map.mp hx
      exact pathEnt_cases d i y
    rw [count_one_eq_sum _ hb]
    exact generatePathRow_sum d tY i hi hfit
  · rintro y i j hij ⟨hi1, hj1⟩
    rw [pathEnt_one_iff] at hi1 hj1
    have hm : cumDur d (i + 1) ≤ cumDur d j := cumDur_mono d (by omega)
    omega
  · intro y i j hi1 hj1
    rw [pathEnt_one_iff] at hi1 hj1
    by_contra hcon
    have hm : cumDur d (j + 1) ≤ cumDur d i := cumDur_mono d (by omega)
    omega

/-- Witness for C7 at the concrete duration vector `[2, 1, 2]` and feature
length 6. -/
theorem generatePath_monotone_spec_witness :
    [2, 1, 2].sum ≤ 6
    ∧ (generatePathRow [2, 1, 2] 6 1).sum = ([2, 1, 2].getD 1 0 : Int) :=
  ⟨by decide,
   (generatePath_monotone_spec [2, 1, 2] 6 (by decide)).2.1 1 (by decide)⟩

/-- C1: when the padded width of the xml label stream differs from the feature
time length `tF`, the xml streams (label, midi, beat) are reconciled to the
feature length: every reconciled row has length `tF`; if shorter, every row is
its original content zero-padded on the right, and if longer, every row is its
original content truncated on the right; and every declared length equal to
the padded width of the xml input is corrected to the feature length, all
other declared lengths staying unchanged. -/
theorem xml_reconcile_spec (lx mx bx : T2i) (lens : List Nat) (tF : Nat)
    (hlx : ∀ r ∈ lx, r.length = ishape1 lx)
    (hmx : ∀ r ∈ mx, r.length = ishape1 lx)
    (hbx : ∀ r ∈ bx, r.length = ishape1 lx)
    (hne : ishape1 lx ≠ tF) :
    (∀ r ∈ (reconcileXml lx mx bx tF).1, r.length = tF)
    ∧ (∀ r ∈ (reconcileXml lx mx bx tF).2.1, r.length = tF)
    ∧ (∀ r ∈ (reconcileXml lx mx bx tF).2.2, r.length = tF)
    ∧ (ishape1 lx < tF → ∀ i, i < lx.length →
        (reconcileXml lx mx bx tF).1.getD i []
          = lx.getD i [] ++ List.replicate (tF - ishape1 lx) 0)
    ∧ (ishape1 lx < tF → ∀ i, i < mx.length →
        (reconcileXml lx mx bx tF).2.1.getD i []
          = mx.getD i [] ++ List.replicate (tF - ishape1 lx) 0)
    ∧ (ishape1 lx < tF → ∀ i, i < bx.length →
        (reconcileXml lx mx bx tF).2.2.getD i []
          = bx.getD i [] ++ List.replicate (tF - ishape1 lx) 0)
    ∧ (tF < ishape1 lx → ∀ i, i < lx.length →
        (reconcileXml lx mx bx tF).1.getD i [] = (lx.getD i []).take tF)
    ∧ (tF < ishape1 lx → ∀ i, i < mx.length →
        (reconcileXml lx mx bx tF).2.1.getD i [] = (mx.getD i []).take tF)
    ∧ (tF < ishape1 lx → ∀ i, i < bx.length →
        (reconcileXml lx mx bx tF).2.2.getD i [] = (bx.getD i []).take tF)
    ∧ (∀ i, i < lens.length →
        (correctXmlLengths lens (ishape1 lx) tF).getD i 0
          = if lens.getD i 0 = ishape1 lx then tF else lens.getD i 0) := by
  have hshape : ∀ (t : T2i), (∀ r ∈ t, r.length = ishape1 lx) → t ≠ [] →
      ishape1 t = ishape1 lx := by
    intro t ht hne2
    cases t with
    | nil => exact absurd rfl hne2
    | cons a tl =>
      have := ht a (by simp)
      simpa [ishape1] using this
  have hpadlen : ∀ (t : T2i), (∀ r ∈ t, r.length = ishape1 lx) →
      ishape1 lx ≤ tF → ∀ r ∈ padStream t tF, r.length = tF := by
    intro t ht hle r hr
    obtain ⟨r0, hr0, rfl⟩ := List.mem_map.mp hr
    have h0 := ht r0 hr0
    have hsh : ishape1 t = ishape1 lx :=
      hshape t ht (by intro hcon; subst hcon; simp at hr0)
    rw [List.length_append, List.length_replicate, h0, hsh]
    omega
  have htrunclen : ∀ (t : T2i), (∀ r ∈ t, r.length = ishape1 lx) →
      tF ≤ ishape1 lx → ∀ r ∈ truncStream t tF, r.length = tF := by
    intro t ht hle r hr
    obtain ⟨r0, hr0, rfl⟩ := List.mem_map.mp hr
    have h0 := ht r0 hr0
    rw [List.length_take]
    omega
  have hpadrow : ∀ (t : T2i), (∀ r ∈ t, r.length = ishape1 lx) →
      ∀ i, i < t.length →
        (padStream t tF).getD i [] = t.getD i [] ++ List.replicate (tF - ishape1 lx) 0 := by
    intro t ht i hi
    have hsh : ishape1 t = ishape1 lx :=
      hshape t ht (by intro hcon; subst hcon; simp at hi)
    unfold padStream
    rw [getD_map_lt _ t i [] [] hi, hsh]
  have htruncrow : ∀ (t : T2i), ∀ i, i < t.length →
      (truncStream t tF).getD i [] = (t.getD i []).take tF := by
    intro t i hi
    unfold truncStream
    rw [getD_map_lt _ t i [] [] hi]
  refine ⟨?_, ?_, ?_, ?_, ?_, ?_, ?_, ?_, ?_, ?_⟩
  · intro r hr
    by_cases hlt : ishape1 lx < tF
    · rw [reconcileXml, if_pos hlt] at hr
      exact hpadlen lx hlx (by omega) r hr
    · rw [reconcileXml, if_neg hlt] at hr
      exact htrunclen lx hlx (by omega) r hr
  · intro r hr
    by_cases hlt : ishape1 lx < tF
    · rw [reconcileXml, if_pos hlt] at hr
      exact hpadlen mx hmx (by omega) r hr
    · rw [reconcileXml, if_neg hlt] at hr
      exact htrunclen mx hmx (by omega) r hr
  · intro r hr
    by_cases hlt : ishape1 lx < tF
    · rw [reconcileXml, if_pos hlt] at hr
      exact hpadlen bx hbx (by omega) r hr
    · rw [reconcileXml, if_neg hlt] at hr
      exact htrunclen bx hbx (by omega) r hr
  · intro hlt i hi
    rw [reconcileXml, if_pos hlt]
    exact hpadrow lx hlx i hi
  · intro hlt i hi
    rw [reconcileXml, if_pos hlt]
    exact hpadrow mx hmx i hi
  · intro hlt i hi
    rw [reconcileXml, if_pos hlt]
    exact hpadrow bx hbx i hi
  · intro hlt i hi
    rw [reconcileXml, if_neg (by omega)]
    exact htruncrow lx i hi
  · intro hlt i hi
    rw [reconcileXml, if_neg (by omega)]
    exact htruncrow mx i hi
  · intro hlt i hi
    rw [reconcileXml, if_neg (by omega)]
    exact htruncrow bx i hi
  · intro i hi
    unfold correctXmlLengths
    rw [getD_map_lt _ lens i 0 0 hi]

/-- Witness for C1 at a concrete batch: width 2 streams against feature
length 4. -/
theorem xml_reconcile_spec_witness :
    ishape1 [[5, 5]] ≠ 4
    ∧ ∀ r ∈ (reconcileXml [[5, 5]] [[7, 7]] [[9, 9]] 4).1, r.length = 4 :=
  ⟨by decide,
   (xml_reconcile_spec [[5, 5]] [[7, 7]] [[9, 9]] [2, 1] 4 (by decide) (by decide)
      (by decide) (by decide)).1⟩

/-- C4: configuring any global-conditioning-dependent feature (speaker count
greater than one, positive speaker-embedding dimension, or language count
greater than one) while the global-conditioning channel width is not positive
makes construction fail immediately, and with a positive global channel width
construction succeeds. -/
theorem init_global_channels_spec (cfg : VITSConfig) :
    (((∃ n, cfg.spks = some n ∧ 1 < n)
        ∨ (∃ dd, cfg.spkEmbedDim = some dd ∧ 0 < dd)
        ∨ (∃ n, cfg.langs = some n ∧ 1 < n)) →
      cfg.globalChannels ≤ 0 → initGenerator cfg = none)
    ∧ (0 < cfg.globalChannels → (initGenerator cfg).isSome) := by
  constructor
  · rintro (⟨n, hn, h1⟩ | ⟨dd, hd, h1⟩ | ⟨n, hn, h1⟩) hgc
    · simp [initGenerator, hn, h1, show ¬ 0 < cfg.globalChannels by omega]
    · simp [initGenerator, hd, h1, show ¬ 0 < cfg.globalChannels by omega,
        obind_const_none]
    · simp [initGenerator, hn, h1, show ¬ 0 < cfg.globalChannels by omega,
        obind_const_none]
  · intro hgc
    rcases hs : cfg.spks with _ | n <;> rcases he : cfg.spkEmbedDim with _ | dd <;>
      rcases hl : cfg.langs with _ | m <;>
        simp [initGenerator, hs, he, hl, hgc] <;> split_ifs <;> simp

/-- Witness for C4: two speakers with the default non-positive global channel
width fail at construction; one with a positive width succeeds. -/
theorem init_global_channels_spec_witness :
    initGenerator { vocabs := 1, spks := some 2 } = none
    ∧ (initGenerator { vocabs := 1, spks := some 2, globalChannels := 256 }).isSome :=
  ⟨(init_global_channels_spec { vocabs := 1, spks := some 2 }).1
      (Or.inl ⟨2, rfl, by decide⟩) (by decide),
   (init_global_channels_spec { vocabs := 1, spks := some 2, globalChannels := 256 }).2
      (by decide)⟩

/-- C2: for every valid training input, `forward` returns, in order, the
decoded waveform segment, the per-example segment start indices, the text
validity mask, the feature validity mask, and the tuple of latents and
Gaussian parameters `(z, z_p, m_p, logs_p, m_q, logs_q)`; moreover the result
is independent of the duration predictor, the monotonic-alignment search and
the length regulator, which are never invoked, so no alignment matrix and no
duration negative log-likelihood is computed or returned. -/
theorem forward_return_spec (c : Components) (st : GenState) (text : T2i)
    (feats : T3) (ds : T2i) (bufs : Buffers) (ll ml tl tx bl : Option T2i)
    (lx mx bx : T2i) (lxl : List Nat) (sids : Option (List Int))
    (spembs : Option (List (List Rat))) (lids : Option (List Int))
    (segStarts : List Nat) (g : Option T3) (lens2 : List Nat)
    (rec3 : T2i × T2i × T2i) (te pe : T3 × T3 × T3 × Mask2)
    (dp : T3 → Mask2 → T3) (mpf : T3 → T3 → T3)
    (lrf : T3 → T2i → T2i → List Nat → T3)
    (hlxl : bufs.label_xml_lengths = some lxl)
    (hlens : correctXmlLengths lxl (ishape1 lx) (shape2 feats) = lens2)
    (hrec : reconcileXml lx mx bx (shape2 feats) = rec3)
    (hte : c.textEncoder (some rec3.1) (some lens2) (some ds) (some rec3.2.1)
        (some rec3.2.2) = te)
    (hg : computeG c st c.spembProjF sids spembs lids = some g)
    (hpe : c.posteriorEncoder (some feats) (some bufs.feats_lengths) g = pe) :
    forward c st text feats ds bufs ll (some lx) ml (some mx) tl tx bl (some bx)
        sids spembs lids segStarts
      = some ((c.decoder
            (getRandomSegments pe.1 bufs.feats_lengths st.segmentSize segStarts).1 g,
          (getRandomSegments pe.1 bufs.feats_lengths st.segmentSize segStarts).2,
          te.2.2.2, pe.2.2.2,
          { z := pe.1, zP := c.flow pe.1 pe.2.2.2 g false, mP := te.2.1,
            logsP := te.2.2.1, mQ := pe.2.1, logsQ := pe.2.2.1 }),
         { bufs with label_xml_lengths := some lens2 })
    ∧ forward { c with durationPredictor := dp,
                       maximumPath := mpf,
                       lengthRegulator := lrf } st text feats ds bufs ll (some lx) ml (some mx)
        tl tx bl (some bx) sids spembs lids segStarts
      = forward c st text feats ds bufs ll (some lx) ml (some mx) tl tx bl
        (some bx) sids spembs lids segStarts := by
  constructor
  · subst hlens hrec hte hpe
    unfold forward
    rw [hlxl]
    simp only [obind_some]
    rw [hg]
    simp only [obind_some]
  · rfl

/-- Witness for C2: the training-forward result at a concrete call is
unchanged when the never-invoked duration predictor, alignment search and
length regulator are replaced. -/
theorem forward_return_spec_witness :
    forward { cEx with durationPredictor := fun x _ => tAdd x x,
                       maximumPath := fun x _ => tAdd x x,
                       lengthRegulator := fun x _ _ _ => tAdd x x } stEx exStream exFeats
        exStream exBufs none (some exStream) none (some exStream) none none none
        (some exStream) none none none [0]
      = forward cEx stEx exStream exFeats exStream exBufs none (some exStream)
        none (some exStream) none none none (some exStream) none none none [0] :=
  (forward_return_spec cEx stEx exStream exFeats exStream exBufs none none none
      none none exStream exStream exStream [2] none none none [0] none _ _ _ _
      (fun x _ => tAdd x x) (fun x _ => tAdd x x) (fun x _ _ _ => tAdd x x)
      rfl rfl rfl rfl rfl rfl).2

/-- C8: the training-forward pass mutates the caller-owned `label_xml_lengths`
buffer in place: every entry equal to the padded width of `label_xml` is
overwritten with the feature time length, the change is visible to the caller
after the call, no other caller-owned length buffer is modified, and the text
encoder is invoked with exactly the corrected lengths (witnessed by the
returned text mask). -/
theorem forward_mutates_lengths (c : Components) (st : GenState) (text : T2i)
    (feats : T3) (ds : T2i) (bufs : Buffers) (ll ml tl tx bl : Option T2i)
    (lx mx bx : T2i) (lxl : List Nat) (sids : Option (List Int))
    (spembs : Option (List (List Rat))) (lids : Option (List Int))
    (segStarts : List Nat) (res : FRet) (bufs2 : Buffers)
    (hlxl : bufs.label_xml_lengths = some lxl)
    (hres : forward c st text feats ds bufs ll (some lx) ml (some mx) tl tx bl
        (some bx) sids spembs lids segStarts = some (res, bufs2)) :
    bufs2.label_xml_lengths
        = some (lxl.map (fun l => if l = ishape1 lx then shape2 feats else l))
    ∧ bufs2.text_lengths = bufs.text_lengths
    ∧ bufs2.feats_lengths = bufs.feats_lengths
    ∧ bufs2.label_lab_lengths = bufs.label_lab_lengths
    ∧ bufs2.midi_lab_lengths = bufs.midi_lab_lengths
    ∧ bufs2.midi_xml_lengths = bufs.midi_xml_lengths
    ∧ bufs2.tempo_lab_lengths = bufs.tempo_lab_lengths
    ∧ bufs2.tempo_xml_lengths = bufs.tempo_xml_lengths
    ∧ bufs2.beat_lab_lengths = bufs.beat_lab_lengths
    ∧ bufs2.beat_xml_lengths = bufs.beat_xml_lengths
    ∧ res.2.2.1 = (c.textEncoder (some (reconcileXml lx mx bx (shape2 feats)).1)
        (some (correctXmlLengths lxl (ishape1 lx) (shape2 feats))) (some ds)
        (some (reconcileXml lx mx bx (shape2 feats)).2.1)
        (some (reconcileXml lx mx bx (shape2 feats)).2.2)).2.2.2 := by
  unfold forward at hres
  rw [hlxl] at hres
  simp only [obind_some] at hres
  cases hG : computeG c st c.spembProjF sids spembs lids with
  | none => rw [hG] at hres; simp at hres
  | some g =>
    rw [hG] at hres
    simp only [obind_some] at hres
    have h12 := Option.some.inj hres
    rw [Prod.mk.injEq] at h12
    obtain ⟨h1, h2⟩ := h12
    subst h1 h2
    exact ⟨rfl, rfl, rfl, rfl, rfl, rfl, rfl, rfl, rfl, rfl, rfl⟩

/-- Witness for C8 at a concrete call: the entry 2 of the caller's length
buffer equals the padded width 2 and is corrected to the feature length 8. -/
theorem forward_mutates_lengths_witness :
    ({ exBufs with label_xml_lengths := some [8] } : Buffers).label_xml_lengths
      = some ([2].map (fun l => if l = ishape1 exStream then shape2 exFeats else l)) :=
  (forward_mutates_lengths cEx stEx exStream exFeats exStream exBufs none none
      none none none exStream exStream exStream [2] none none none [0] _
      { exBufs with label_xml_lengths := some [8] } rfl rfl).1

/-- C9: `label_xml`, `label_xml_lengths`, `midi_xml` and `beat_xml` are
de-facto required by the training-forward pass although declared optional: if
any of them is absent the pass fails with a runtime error instead of returning
a result, while a call providing all four (here with no global conditioning
configured) does return a result. -/
theorem forward_requires_xml (c : Components) (st : GenState) (text : T2i)
    (feats : T3) (ds : T2i) (bufs : Buffers) (ll lxs ml mxs tl txs bl bxs : Option T2i)
    (sids : Option (List Int)) (spembs : Option (List (List Rat)))
    (lids : Option (List Int)) (segStarts : List Nat) :
    ((lxs = none ∨ bufs.label_xml_lengths = none ∨ mxs = none ∨ bxs = none) →
      forward c st text feats ds bufs ll lxs ml mxs tl txs bl bxs sids spembs
        lids segStarts = none)
    ∧ (st.spks = none → st.spkEmbedDim = none → st.langs = none →
      ∀ lx lxl mx bx, lxs = some lx → bufs.label_xml_lengths = some lxl →
        mxs = some mx → bxs = some bx →
        (forward c st text feats ds bufs ll lxs ml mxs tl txs bl bxs sids spembs
          lids segStarts).isSome) := by
  constructor
  · rintro (rfl | h | rfl | rfl)
    · simp [forward, obind_const_none]
    · simp [forward, h]
    · simp [forward, obind_const_none]
    · simp [forward, obind_const_none]
  · intro hs he hl lx lxl mx bx hlxs hlxl hmxs hbxs
    subst hlxs hmxs hbxs
    simp [forward, computeG, hlxl, hs, he, hl]

/-- Witness for C9: the concrete call providing all four xml inputs returns a
result. -/
theorem forward_requires_xml_witness :
    (forward cEx stEx exStream exFeats exStream exBufs none (some exStream) none
        (some exStream) none none none (some exStream) none none none [0]).isSome :=
  (forward_requires_xml cEx stEx exStream exFeats exStream exBufs none
      (some exStream) none (some exStream) none none none (some exStream) none
      none none [0]).2 rfl rfl rfl exStream [2] exStream exStream rfl rfl rfl rfl

/-- C10: two inference calls identical except in `dur`, `noise_scale_dur` and
`alpha` (and sharing the same random draw) return the same value, because
these three parameters are never read; and the second and third return values
are always `None`. -/
theorem inference_ignores_dur_controls (c : Components) (st : GenState)
    (text : T2i) (text_lengths : List Nat) (feats : Option T3)
    (feats_lengths : Option (List Nat)) (label_lab label_xml : Option T2i)
    (label_xml_lengths : Option (List Nat))
    (midi_lab midi_xml tempo_lab tempo_xml beat_lab beat_xml : Option T2i)
    (sids : Option (List Int)) (spembs : Option (List (List Rat)))
    (lids : Option (List Int)) (dur1 dur2 : Option T2i) (ns nsd1 nsd2 a1 a2 : Rat)
    (max_len : Option Nat) (utf : Bool) (noise : T3) :
    inference c st text text_lengths feats feats_lengths label_lab label_xml
        label_xml_lengths midi_lab midi_xml tempo_lab tempo_xml beat_lab beat_xml
        sids spembs lids dur1 ns nsd1 a1 max_len utf noise
      = inference c st text text_lengths feats feats_lengths label_lab label_xml
        label_xml_lengths midi_lab midi_xml tempo_lab tempo_xml beat_lab beat_xml
        sids spembs lids dur2 ns nsd2 a2 max_len utf noise
    ∧ (∀ r, inference c st text text_lengths feats feats_lengths label_lab
        label_xml label_xml_lengths midi_lab midi_xml tempo_lab tempo_xml
        beat_lab beat_xml sids spembs lids dur1 ns nsd1 a1 max_len utf noise
          = some r →
        r.2.1 = none ∧ r.2.2 = none) := by
  constructor
  · rfl
  · intro r hr
    unfold inference at hr
    cases hG : computeG c st c.spembProjI sids spembs lids with
    | none => rw [hG] at hr; simp at hr
    | some g =>
      rw [hG] at hr
      simp only [obind_some] at hr
      cases utf with
      | false =>
        have h := Option.some.inj hr
        exact ⟨by rw [← h], by rw [← h]⟩
      | true =>
        have h := Option.some.inj hr
        exact ⟨by rw [← h], by rw [← h]⟩

/-- Witness for C10: at a concrete free-running call the second and third
return values are both `None`. -/
theorem inference_ignores_dur_controls_witness :
    ((squeeze1 (cEx.decoder (truncTime none (bmulMask (cEx.flow
          (tAdd exT2 (tSMul (tMul exT2 (tMap cEx.vexp exT2)) 1)) exMask2 none true)
          exMask2)) none), none, none)
        : List (List Rat) × Option T3 × Option T2i).2.1 = none
    ∧ ((squeeze1 (cEx.decoder (truncTime none (bmulMask (cEx.flow
          (tAdd exT2 (tSMul (tMul exT2 (tMap cEx.vexp exT2)) 1)) exMask2 none true)
          exMask2)) none), none, none)
        : List (List Rat) × Option T3 × Option T2i).2.2 = none :=
  (inference_ignores_dur_controls cEx stEx exStream [2] none none none
      (some exStream) (some [2]) none (some exStream) none none none
      (some exStream) none none none none none 1 1 1 1 1 none false exT2).2
    (squeeze1 (cEx.decoder (truncTime none (bmulMask (cEx.flow
        (tAdd exT2 (tSMul (tMul exT2 (tMap cEx.vexp exT2)) 1)) exMask2 none true)
        exMask2)) none), none, none) rfl

/-- C5: in the free-running inference branch (teacher forcing off) the
flow-space latent is the prior mean plus standard-normal noise times the
exponentiated prior log-scale times the noise-scale control, entrywise, at the
encoder's natural time resolution (its shape equals the prior mean's); the
inverse flow then maps it to decoder space, the result is masked by the text
mask, truncated to the optional maximum length, and decoded. -/
theorem inference_free_running (c : Components) (st : GenState) (text : T2i)
    (text_lengths : List Nat) (feats : Option T3)
    (feats_lengths : Option (List Nat)) (label_lab label_xml : Option T2i)
    (label_xml_lengths : Option (List Nat))
    (midi_lab midi_xml tempo_lab tempo_xml beat_lab beat_xml : Option T2i)
    (sids : Option (List Int)) (spembs : Option (List (List Rat)))
    (lids : Option (List Int)) (dur : Option T2i) (ns nsd a : Rat)
    (max_len : Option Nat) (noise : T3) (g : Option T3)
    (te : T3 × T3 × T3 × Mask2) (zp : T3)
    (hte : c.textEncoder label_xml label_xml_lengths none midi_xml beat_xml = te)
    (hg : computeG c st c.spembProjI sids spembs lids = some g)
    (hzp : tAdd te.2.1 (tSMul (tMul noise (tMap c.vexp te.2.2.1)) ns) = zp)
    (hdn : dims3 noise = dims3 te.2.1)
    (hdl : dims3 te.2.2.1 = dims3 te.2.1) :
    inference c st text text_lengths feats feats_lengths label_lab label_xml
        label_xml_lengths midi_lab midi_xml tempo_lab tempo_xml beat_lab beat_xml
        sids spembs lids dur ns nsd a max_len false noise
      = some (squeeze1 (c.decoder
          (truncTime max_len (bmulMask (c.flow zp te.2.2.2 g true) te.2.2.2)) g),
          none, none)
    ∧ (∀ bi ch i, inBounds3 te.2.1 bi ch i →
        ent3 zp bi ch i
          = ent3 te.2.1 bi ch i
            + ent3 noise bi ch i * c.vexp (ent3 te.2.2.1 bi ch i) * ns)
    ∧ dims3 zp = dims3 te.2.1 := by
  have hdm : dims3 (tMap c.vexp te.2.2.1) = dims3 te.2.1 := by
    rw [dims3_tMap]; exact hdl
  have hdmul : dims3 (tMul noise (tMap c.vexp te.2.2.1)) = dims3 noise :=
    dims3_tMul (by rw [hdm, hdn])
  have hds : dims3 (tSMul (tMul noise (tMap c.vexp te.2.2.1)) ns)
      = dims3 te.2.1 := by
    rw [dims3_tSMul, hdmul, hdn]
  refine ⟨?_, ?_, ?_⟩
  · subst hte hzp
    unfold inference
    rw [hg]
    simp only [obind_some]
    rfl
  · intro bi ch i hb
    subst hzp
    rw [ent3_tAdd hb hds.symm]
    rw [ent3_tSMul ns
      (inBounds3_of_dims
        (show dims3 te.2.1 = dims3 (tMul noise (tMap c.vexp te.2.2.1)) by
          rw [hdmul, hdn]) hb)]
    rw [ent3_tMul (inBounds3_of_dims hdn.symm hb) (by rw [hdm, hdn])]
    rw [ent3_tMap c.vexp (inBounds3_of_dims hdl.symm hb)]
  · subst hzp
    rw [dims3_tAdd hds.symm]

/-- Witness for C5 at a concrete free-running call with concrete noise. -/
theorem inference_free_running_witness :
    inference cEx stEx exStream [2] none none none (some exStream) (some [2])
        none (some exStream) none none none (some exStream) none none none none
        1 1 1 none false exT2
      = some (squeeze1 (cEx.decoder (truncTime none (bmulMask (cEx.flow
          (tAdd exT2 (tSMul (tMul exT2 (tMap cEx.vexp exT2)) 1)) exMask2 none
          true) exMask2)) none), none, none) :=
  (inference_free_running cEx stEx exStream [2] none none none (some exStream)
      (some [2]) none (some exStream) none none none (some exStream) none none
      none none 1 1 1 none exT2 none (exT2, exT2, exT2, exMask2)
      (tAdd exT2 (tSMul (tMul exT2 (tMap cEx.vexp exT2)) 1)) rfl rfl rfl rfl
      rfl).1

/-- C6: in the teacher-forcing inference branch the real acoustic features are
passed through the posterior encoder, and the decoder is applied to the full,
unsegmented posterior latent multiplied by the feature validity mask (the
decoder input keeps the full feature time length, with no random segment
cropping); the posterior latent and the flow-space latent agree with those the
training-forward pass computes from the same features, feature lengths and
global conditioning. -/
theorem inference_teacher_forcing (c : Components) (st : GenState) (text : T2i)
    (text_lengths : List Nat) (fv : T3) (flv : List Nat)
    (label_lab label_xml : Option T2i) (label_xml_lengths : Option (List Nat))
    (midi_lab midi_xml tempo_lab tempo_xml beat_lab beat_xml : Option T2i)
    (sids : Option (List Int)) (spembs : Option (List (List Rat)))
    (lids : Option (List Int)) (dur : Option T2i) (ns nsd a : Rat)
    (max_len : Option Nat) (noise : T3) (g : Option T3)
    (pe : T3 × T3 × T3 × Mask2) (tTot : Nat)
    (hse : st.spkEmbedDim = none)
    (hg : computeG c st c.spembProjI sids spembs lids = some g)
    (hpe : c.posteriorEncoder (some fv) (some flv) g = pe)
    (hz : timesUniform pe.1 tTot)
    (hym : ∀ row ∈ pe.2.2.2, row.length = tTot) :
    inference c st text text_lengths (some fv) (some flv) label_lab label_xml
        label_xml_lengths midi_lab midi_xml tempo_lab tempo_xml beat_lab beat_xml
        sids spembs lids dur ns nsd a max_len true noise
      = some (squeeze1 (c.decoder (bmulMask pe.1 pe.2.2.2) g), none, none)
    ∧ timesUniform (bmulMask pe.1 pe.2.2.2) tTot
    ∧ (∀ (text2 : T2i) (ds : T2i) (bufs : Buffers) (ll ml tl tx bl : Option T2i)
        (lx mx bx : T2i) (segStarts : List Nat) (res : FRet) (bufs2 : Buffers),
        bufs.feats_lengths = flv →
        forward c st text2 fv ds bufs ll (some lx) ml (some mx) tl tx bl (some bx)
          sids spembs lids segStarts = some (res, bufs2) →
        (latentsOf res).z = pe.1
          ∧ (latentsOf res).zP = c.flow pe.1 pe.2.2.2 g false) := by
  refine ⟨?_, timesUniform_bmulMask hz hym, ?_⟩
  · subst hpe
    unfold inference
    rw [hg]
    simp only [obind_some]
    rfl
  · intro text2 ds bufs ll ml tl tx bl lx mx bx segStarts res bufs2 hfl hres
    unfold forward at hres
    cases hb : bufs.label_xml_lengths with
    | none => rw [hb] at hres; simp at hres
    | some lxl =>
      rw [hb] at hres
      simp only [obind_some] at hres
      have hgF : computeG c st c.spembProjF sids spembs lids = some g := by
        rw [computeG_pipe_eq c st c.spembProjF c.spembProjI sids spembs lids hse]
        exact hg
      rw [hgF] at hres
      simp only [obind_some] at hres
      have h12 := Option.some.inj hres
      rw [Prod.mk.injEq] at h12
      obtain ⟨h1, h2⟩ := h12
      constructor
      · rw [← h1]
        show (c.posteriorEncoder (some fv) (some bufs.feats_lengths) g).1 = pe.1
        rw [hfl, hpe]
      · rw [← h1]
        show c.flow (c.posteriorEncoder (some fv) (some bufs.feats_lengths) g).1
            (c.posteriorEncoder (some fv) (some bufs.feats_lengths) g).2.2.2 g false
          = c.flow pe.1 pe.2.2.2 g false
        rw [hfl, hpe]

/-- Witness for C6 at a concrete teacher-forcing call. -/
theorem inference_teacher_forcing_witness :
    inference cEx stEx exStream [2] (some exFeats) (some [8]) none
        (some exStream) (some [2]) none (some exStream) none none none
        (some exStream) none none none none 1 1 1 none true exT2
      = some (squeeze1 (cEx.decoder (bmulMask exZ8 exMask8) none), none, none) :=
  (inference_teacher_forcing cEx stEx exStream [2] exFeats [8] none
      (some exStream) (some [2]) none (some exStream) none none none
      (some exStream) none none none none 1 1 1 none exT2 none
      (exZ8, exZ8, exZ8, exMask8) 8 rfl rfl rfl (by decide) (by decide)).1

/-- Counterexample for C3: at a concrete training-forward call with segment
size 4, the returned latent tuple has six elements, not five as claimed. -/
theorem forward_latents_five_counterexample :
    (forwardEx.map fun rb => (latentsOf rb.1).toList.length) = some 6
    ∧ (forwardEx.map fun rb => (latentsOf rb.1).toList.length) ≠ some 5 := by
  constructor
  · rfl
  · intro hcon
    have h6 : (forwardEx.map fun rb => (latentsOf rb.1).toList.length) = some 6 :=
      rfl
    rw [hcon] at h6
    exact absurd (Option.some.inj h6) (by decide)

/-- C3 (amended): for a training-forward call with the configured segment size
`S` (in particular 4), every row of the returned waveform segment has time
length `S * upsample_factor`, where `upsample_factor` is the product of the
configured decoder upsample scales, and the returned latent tuple has six
elements, all with the same channel count. -/
theorem forward_segment_spec (cfg : VITSConfig) (st : GenState) (c : Components)
    (text : T2i) (feats : T3) (ds : T2i) (bufs : Buffers)
    (ll ml tl tx bl : Option T2i) (lx mx bx : T2i) (lxl : List Nat)
    (sids : Option (List Int)) (spembs : Option (List (List Rat)))
    (lids : Option (List Int)) (segStarts : List Nat) (g : Option T3)
    (te pe : T3 × T3 × T3 × Mask2) (hch tF : Nat)
    (hinit : initGenerator cfg = some st)
    (hlxl : bufs.label_xml_lengths = some lxl)
    (hte : c.textEncoder (some (reconcileXml lx mx bx (shape2 feats)).1)
        (some (correctXmlLengths lxl (ishape1 lx) (shape2 feats))) (some ds)
        (some (reconcileXml lx mx bx (shape2 feats)).2.1)
        (some (reconcileXml lx mx bx (shape2 feats)).2.2) = te)
    (hg : computeG c st c.spembProjF sids spembs lids = some g)
    (hpe : c.posteriorEncoder (some feats) (some bufs.feats_lengths) g = pe)
    (hdec : ∀ zz gg n, timesUniform zz n →
        timesUniform (c.decoder zz gg) (n * st.upsampleFactor))
    (hz : timesUniform pe.1 tF)
    (hstarts : ∀ i, i < segStarts.length →
        segStarts.getD i 0 + st.segmentSize ≤ tF)
    (hcz : chansUniform pe.1 hch)
    (hczp : chansUniform (c.flow pe.1 pe.2.2.2 g false) hch)
    (hcm : chansUniform te.2.1 hch) (hcl : chansUniform te.2.2.1 hch)
    (hcmq : chansUniform pe.2.1 hch) (hclq : chansUniform pe.2.2.1 hch) :
    ∀ res bufs2,
      forward c st text feats ds bufs ll (some lx) ml (some mx) tl tx bl (some bx)
        sids spembs lids segStarts = some (res, bufs2) →
      timesUniform res.1 (st.segmentSize * st.upsampleFactor)
      ∧ st.upsampleFactor = cfg.decoderUpsampleScales.prod
      ∧ (latentsOf res).toList.length = 6
      ∧ ∀ tl2 ∈ (latentsOf res).toList, chansUniform tl2 hch := by
  intro res bufs2 hres
  have hupf : st.upsampleFactor = cfg.decoderUpsampleScales.prod := by
    simp only [initGenerator] at hinit
    obtain ⟨a1, hA, hinit⟩ := Option.bind_eq_some.mp hinit
    obtain ⟨a2, hB, hinit⟩ := Option.bind_eq_some.mp hinit
    obtain ⟨a3, hC, hinit⟩ := Option.bind_eq_some.mp hinit
    have hst := Option.some.inj hinit
    rw [← hst]
  subst hte hpe
  unfold forward at hres
  rw [hlxl] at hres
  simp only [obind_some] at hres
  rw [hg] at hres
  simp only [obind_some] at hres
  have h12 := Option.some.inj hres
  rw [Prod.mk.injEq] at h12
  obtain ⟨h1, h2⟩ := h12
  subst h1
  refine ⟨?_, hupf, rfl, ?_⟩
  · exact hdec _ g st.segmentSize (timesUniform_segments hz hstarts)
  · intro tl2 htl2
    simp only [latentsOf, LatentTuple.toList, List.mem_cons,
      List.not_mem_nil, or_false] at htl2
    rcases htl2 with rfl | rfl | rfl | rfl | rfl | rfl
    · exact hcz
    · exact hczp
    · exact hcm
    · exact hcl
    · exact hcmq
    · exact hclq

/-- Witness for the amended C3 at the concrete configuration with segment
size 4 and decoder upsample scales `[1]`. -/
theorem forward_segment_spec_witness :
    stEx.upsampleFactor = cfgEx.decoderUpsampleScales.prod :=
  ((forward_segment_spec cfgEx stEx cEx exStream exFeats exStream exBufs none
      none none none none exStream exStream exStream [2] none none none [0] none
      (exT2, exT2, exT2, exMask2) (exZ8, exZ8, exZ8, exMask8) 2 8 rfl rfl rfl
      rfl rfl (fun zz gg n h => by simpa [cEx, stEx] using h) (by decide) (by decide)
      (by decide) (by decide) (by decide) (by decide) (by decide) (by decide))
    _ _ rfl).2.1
